import Mathlib

/-!
Verification development for the embedded-ai repository.

The development shallowly embeds the two cores of the system:

* the UART WAV-file receiver of `src/RPI_ZERO2/RPI_ZERO2_pc.py`
  (header parsing, chunked payload reception, CRC-32 verification,
  ACK/NACK emission, GPIO-gated mode arbitration), and
* the voice-activity segmentation engine of `prototype/vox_recorder.py`
  (pre-roll ring buffer, silence-timeout endpointing, post-roll padding
  and the minimum-speech-duration gate).

Machine integers are modelled as `Nat`/`Int` with explicit masking where
the source masks; byte streams are lists of `Nat` (each intended `< 256`);
wall-clock times (Python floats) are modelled as exact rationals.
-/

/-! ## CRC-32 (binascii.crc32 as used by `crc32_update` in both receivers) -/

/-- One shift-and-conditionally-xor round of the reflected CRC-32
polynomial 0xEDB88320, operating on the low bit. -/
def crcRound (c : Nat) : Nat :=
  if c % 2 = 1 then (c / 2) ^^^ 0xEDB88320 else c / 2

/-- Fold one byte into a running CRC state: xor the byte into the low
bits, then run eight polynomial rounds. -/
def crc32_byte (crc b : Nat) : Nat :=
  crcRound^[8] (crc ^^^ b)

/-- Fold a byte list into a running (pre-complement) CRC state. -/
def crc32_loop (crc : Nat) (data : List Nat) : Nat :=
  data.foldl crc32_byte crc

/-- `binascii.crc32(data, value)`: complement the starting value, fold
the data, complement the result. `binascii.crc32(P)` is `crc32 P 0`. -/
def crc32 (data : List Nat) (value : Nat) : Nat :=
  crc32_loop (value ^^^ 0xFFFFFFFF) data ^^^ 0xFFFFFFFF

/-- `crc32_update` from RPI_ZERO2_pc.py / RPI_ZERO2_micro.py:
`binascii.crc32(data, crc) & 0xFFFFFFFF`. -/
def crc32_update (crc : Nat) (data : List Nat) : Nat :=
  crc32 data crc &&& 0xFFFFFFFF

/-! ## Payload receive loop (`uart_receiver` lines 134-144 / `receive_wavs` lines 117-127)

The serial port is modelled as the byte list `buf` still buffered on the
link plus an availability schedule `avail`: the `i`-th entry is how many
bytes the port has ready at the `i`-th `ser.read` call (`0` models a
read timeout, which the code retries).  `ser.read(n)` returns at most
`n` bytes, so each chunk is `buf.take (min available requested)`. -/

/-- Result of the payload loop: bytes written to the open file, the
bytes-received counter, the running CRC, and the unconsumed stream. -/
structure RecvResult where
  written : List Nat
  received : Nat
  crc : Nat
  rest : List Nat
deriving Repr, DecidableEq

/-- The `while received < file_size` loop of `uart_receiver`.  The
`Bool` is `true` when the loop exited normally (`received ≥ size`) and
`false` when the availability schedule ran out first (the real loop
would still be blocked retrying reads; the model truncates there). -/
def recvLoop (size : Int) (hasCrc : Bool) :
    List Nat → List Nat → Nat → List Nat → Nat → RecvResult × Bool
  | [], buf, received, written, crc =>
    (⟨written, received, crc, buf⟩, !decide ((received : Int) < size))
  | a :: rest, buf, received, written, crc =>
    if (received : Int) < size then
      let req := (min (size - (received : Int)) 1024).toNat
      let chunk := buf.take (min a req)
      if chunk.length = 0 then
        recvLoop size hasCrc rest buf received written crc
      else
        recvLoop size hasCrc rest (buf.drop chunk.length) (received + chunk.length)
          (written ++ chunk) (if hasCrc then crc32_update crc chunk else crc)
    else
      (⟨written, received, crc, buf⟩, true)

/-- The finalization check of `uart_receiver` line 146:
`ok = received == file_size and (expected_crc is None or crc == expected_crc)`. -/
def transferOk (size : Int) (expected : Option Int) (received crc : Nat) : Bool :=
  decide ((received : Int) = size) &&
    (match expected with
     | none => true
     | some e => decide ((crc : Int) = e))

/-! ## Python integer-literal parsing (header size and checksum fields) -/

/-- ASCII decimal digit test. -/
def isDig (c : Char) : Bool := '0' ≤ c && c ≤ '9'

/-- ASCII hexadecimal digit test. -/
def isHexDig (c : Char) : Bool :=
  isDig c || ('a' ≤ c && c ≤ 'f') || ('A' ≤ c && c ≤ 'F')

/-- Value of a hexadecimal digit. -/
def hexVal (c : Char) : Nat :=
  if isDig c then c.toNat - 48
  else if 'a' ≤ c && c ≤ 'f' then c.toNat - 87
  else c.toNat - 55

/-- Matches Python's `(["_"] digit)*`: every underscore is immediately
followed by a digit (single underscores between digits, or one directly
after a base prefix when used for the leading group). -/
def uDigitsAux (isD : Char → Bool) : List Char → Bool
  | [] => true
  | '_' :: c :: rest => isD c && uDigitsAux isD rest
  | ['_'] => false
  | c :: rest => isD c && uDigitsAux isD rest

/-- Matches Python's `(["_"] digit)+` (used after a base prefix). -/
def uDigits (isD : Char → Bool) (s : List Char) : Bool :=
  !s.isEmpty && uDigitsAux isD s

/-- Numeric value of a digit string in base `b`, ignoring underscores. -/
def digitsVal (b : Nat) (dv : Char → Nat) (s : List Char) : Nat :=
  (s.filter (· ≠ '_')).foldl (fun n c => n * b + dv c) 0

/-- Python whitespace characters stripped by `str.strip()` and by
`int()` (ASCII fragment). -/
def isPySpace (c : Char) : Bool :=
  c = ' ' || c = '\t' || c = '\n' || c = '\x0d' ||
  c = Char.ofNat 11 || c = Char.ofNat 12

/-- `str.strip()`: drop whitespace from both ends. -/
def pyStrip (s : List Char) : List Char :=
  ((s.dropWhile isPySpace).reverse.dropWhile isPySpace).reverse

/-- Unsigned part of Python `int(s)` (base 10): `digit (["_"] digit)*`,
leading zeros allowed. -/
def decDigits : List Char → Option Nat
  | [] => none
  | c :: rest =>
    if isDig c && uDigitsAux isDig rest then
      some (digitsVal 10 (fun d => d.toNat - 48) (c :: rest))
    else none

/-- Python `int(s)` on the header's size field: optional surrounding
whitespace, optional single sign, then base-10 digits. -/
def pyIntParse (s : List Char) : Option Int :=
  match pyStrip s with
  | '+' :: rest => (decDigits rest).map Int.ofNat
  | '-' :: rest => (decDigits rest).map (fun n => -(n : Int))
  | rest => (decDigits rest).map Int.ofNat

/-- Unsigned part of Python `int(s, 0)`: `0x`/`0o`/`0b` prefixed
literals, or decimal without leading zeros (any string of zeros is 0). -/
def base0Digits : List Char → Option Nat
  | [] => none
  | ['0'] => some 0
  | '0' :: c :: rest =>
    if c = 'x' || c = 'X' then
      if uDigits isHexDig rest then some (digitsVal 16 hexVal rest) else none
    else if c = 'o' || c = 'O' then
      if uDigits (fun d => '0' ≤ d && d ≤ '7') rest then
        some (digitsVal 8 (fun d => d.toNat - 48) rest)
      else none
    else if c = 'b' || c = 'B' then
      if uDigits (fun d => d = '0' || d = '1') rest then
        some (digitsVal 2 (fun d => d.toNat - 48) rest)
      else none
    else if uDigitsAux (· = '0') (c :: rest) then some 0
    else none
  | c :: rest =>
    if isDig c && uDigitsAux isDig rest then
      some (digitsVal 10 (fun d => d.toNat - 48) (c :: rest))
    else none

/-- Python `int(s, 0)` on the optional checksum field. -/
def pyIntParse0 (s : List Char) : Option Int :=
  match pyStrip s with
  | '+' :: rest => (base0Digits rest).map Int.ofNat
  | '-' :: rest => (base0Digits rest).map (fun n => -(n : Int))
  | rest => (base0Digits rest).map Int.ofNat

/-! ## Header parsing (`uart_receiver` lines 112-129) -/

/-- Parse a stripped header line exactly as `uart_receiver` does:
split on commas; fewer than two fields or an unparsable size field
skips the transfer (`none`); an unparsable third field merely leaves
the expected checksum undeclared. -/
def parseHeader (header : List Char) : Option (List Char × Int × Option Int) :=
  let parts := header.splitOn ','
  if parts.length < 2 then none
  else
    match pyIntParse (parts.getD 1 []) with
    | none => none
    | some file_size =>
      let expected : Option Int :=
        if 3 ≤ parts.length then
          match pyIntParse0 (parts.getD 2 []) with
          | some v => some v
          | none => none
        else none
      some (parts.getD 0 [], file_size, expected)

/-! ## Serial line input -/

/-- `ser.readline()`: bytes up to and including the first newline
(byte 10), or everything (possibly nothing) if no newline arrives. -/
def readLine : List Nat → List Nat × List Nat
  | [] => ([], [])
  | b :: rest =>
    if b = 10 then ([10], rest)
    else
      let (l, r) := readLine rest
      (b :: l, r)

/-- `bytes.decode()` restricted to the ASCII fragment of UTF-8: bytes
below 128 decode to the corresponding characters; any byte ≥ 128 is
modelled as a decode failure (the protocol's headers are ASCII). -/
def decodeAscii : List Nat → Option (List Char)
  | [] => some []
  | b :: rest =>
    if b < 128 then (decodeAscii rest).map (fun cs => Char.ofNat b :: cs)
    else none

/-! ## Paths (`os.path.basename` / `os.path.join`, lines 50-53 and 131) -/

/-- `posixpath.basename`: the part of the path after the last slash. -/
def basename (s : List Char) : List Char :=
  s.foldl (fun acc c => if c = '/' then [] else acc ++ [c]) []

/-- `posixpath.join` for a single extra component. -/
def ospath_join (a b : List Char) : List Char :=
  if b.head? = some '/' then b
  else if a = [] || a.getLast? = some '/' then a ++ b
  else a ++ '/' :: b

/-- `BASE_DIR = "/home/pi/wav_pipeline"`. -/
def BASE_DIR : List Char := "/home/pi/wav_pipeline".data

/-- `AUDIO_DIR = os.path.join(BASE_DIR, "audio")`. -/
def AUDIO_DIR : List Char := ospath_join BASE_DIR "audio".data

/-! ## The receiver loop (`uart_receiver`) and mode arbitration (`main`) -/

/-- Environment for one iteration of the receiver's outer loop: the
GPIO4 sample taken at the top of the iteration, and the availability
schedule for the payload reads of a transfer started in it. -/
structure IterEnv where
  gpioHigh : Bool
  avail : List Nat
deriving Repr, DecidableEq

/-- Externally observable actions of the receiver and the mode arbiter. -/
inductive Event where
  | fileWrite : List Char → List Nat → Event
  | ackEv : Event
  | nackEv : Event
  | closeEv : Event
  | enterProcessing : Event
deriving Repr, DecidableEq

/-- The outer loop of `uart_receiver` (lines 96-148): poll GPIO4;
read and parse a header line; on success receive the payload, write the
file, and answer ACK or NACK; on any malformed input skip to the next
iteration on the same stream.  The iteration-environment list is the
modelled horizon of the `while True` loop. -/
def uart_receiver : List IterEnv → List Nat → List Event
  | [], _ => []
  | env :: rest, stream =>
    if env.gpioHigh then [Event.closeEv]
    else
      let lr := readLine stream
      if lr.1.length = 0 then uart_receiver rest lr.2
      else
        match decodeAscii lr.1 with
        | none => uart_receiver rest lr.2
        | some chars =>
          match parseHeader (pyStrip chars) with
          | none => uart_receiver rest lr.2
          | some (filename, size, expected) =>
            let path := ospath_join AUDIO_DIR (basename filename)
            match recvLoop size expected.isSome env.avail lr.2 0 [] 0 with
            | (res, true) =>
              Event.fileWrite path res.written ::
                (if transferOk size expected res.received res.crc then Event.ackEv
                 else Event.nackEv) :: uart_receiver rest res.rest
            | (res, false) => [Event.fileWrite path res.written]

/-- One receive session followed by `main`'s arbitration (lines
288-293): after `uart_receiver` returns, `main` samples GPIO4, waits
200 ms, samples again, and commits to processing only if both samples
are high. -/
def receiveThenArbitrate (envs : List IterEnv) (stream : List Nat)
    (s1 s2 : Bool) : List Event :=
  uart_receiver envs stream ++ (if s1 && s2 then [Event.enterProcessing] else [])

/-! ## Segmentation engine (`prototype/vox_recorder.py`)

Audio frames are byte strings (`pcm`); wall-clock times from
`time.time()` are modelled as exact rationals. -/

/-- A PCM frame as produced by the stream callback. -/
abbrev Frame := List Nat

/-- `frame_duration = 30` (milliseconds). -/
def frame_duration : Nat := 30

/-- `silence_threshold = 30.0` (seconds). -/
def silence_threshold : ℚ := 30

/-- `min_speech_duration = 5.0` (seconds). -/
def min_speech_duration : ℚ := 5

/-- `pre_speech_padding = 0.5` (seconds). -/
def pre_speech_padding : ℚ := 1 / 2

/-- `post_speech_padding = 0.5` (seconds). -/
def post_speech_padding : ℚ := 1 / 2

/-- `int(pre_speech_padding * 1000 / frame_duration)`: capacity of the
`pre_speech_buffer` deque. -/
def pre_maxlen : Nat := (⌊pre_speech_padding * 1000 / (frame_duration : ℚ)⌋).toNat

/-- `int(post_speech_padding * 1000 / frame_duration)`: number of
filler frames appended at finalization. -/
def post_frames : Nat := (⌊post_speech_padding * 1000 / (frame_duration : ℚ)⌋).toNat

/-- `deque(maxlen=n).append`: append on the right, evicting from the
left when the bound is exceeded. -/
def dequeAppend (maxlen : Nat) (q : List Frame) (x : Frame) : List Frame :=
  (q ++ [x]).drop (q.length + 1 - maxlen)

/-- The recorder's mutable module state (`recording`, `audio_buffer`,
`pre_speech_buffer`, `silence_start_time`, `speech_frame_count`). -/
structure VoxState where
  recording : Bool
  audio_buffer : List Frame
  pre_speech_buffer : List Frame
  silence_start_time : Option ℚ
  speech_frame_count : Nat
deriving Repr, DecidableEq

/-- The module state at import time. -/
def voxInit : VoxState :=
  ⟨false, [], [], none, 0⟩

/-- `save_audio(frames, speech_frame_count)`: the duration gate.
Returns the frames that were written to the WAV file, or `none` when
the segment is discarded. -/
def save_audio (frames : List Frame) (speech_frame_count : Nat) : Option (List Frame) :=
  if (speech_frame_count : ℚ) * (frame_duration : ℚ) / 1000 < min_speech_duration then
    none
  else
    some frames

/-- One invocation of the stream `callback` on a frame `pcm` classified
as `is_speech` at wall-clock time `t`.  The second component records a
finalization, when one occurred: `some (some frames)` when `save_audio`
persisted the segment, `some none` when the gate discarded it (the
code's logged "Discarded" outcome), and `none` when no segment was
finalized on this frame. -/
def callback (s : VoxState) (pcm : Frame) (is_speech : Bool) (t : ℚ) :
    VoxState × Option (Option (List Frame)) :=
  if is_speech then
    let s1 := if !s.recording then
        { s with recording := true, audio_buffer := s.pre_speech_buffer,
                 speech_frame_count := 0 }
      else s
    ({ s1 with speech_frame_count := s1.speech_frame_count + 1,
               audio_buffer := s1.audio_buffer ++ [pcm],
               silence_start_time := none }, none)
  else if s.recording then
    let buf := s.audio_buffer ++ [pcm]
    match s.silence_start_time with
    | none => ({ s with audio_buffer := buf, silence_start_time := some t }, none)
    | some t0 =>
      if silence_threshold < t - t0 then
        let final := buf ++ List.replicate post_frames pcm
        ({ s with recording := false, audio_buffer := [],
                  silence_start_time := none, speech_frame_count := 0 },
         some (save_audio final s.speech_frame_count))
      else
        ({ s with audio_buffer := buf }, none)
  else
    ({ s with pre_speech_buffer := dequeAppend pre_maxlen s.pre_speech_buffer pcm },
     none)

/-- The artifact persisted by one `callback` invocation, if any. -/
def emitted (s : VoxState) (pcm : Frame) (is_speech : Bool) (t : ℚ) :
    Option (List Frame) :=
  (callback s pcm is_speech t).2.join

/-- A run of the recorder: fold `callback` over a sequence of
classified, timestamped frames, collecting the finalization decisions
(persisted frames or discards) in order. -/
def voxRun : VoxState → List (Frame × Bool × ℚ) → VoxState × List (Option (List Frame))
  | s, [] => (s, [])
  | s, (pcm, sp, t) :: rest =>
    let r := callback s pcm sp t
    let r2 := voxRun r.1 rest
    (r2.1, r.2.toList ++ r2.2)

/-- The `KeyboardInterrupt` handler of the listen loop (lines 92-96):
it prints and exits; no finalization of the in-progress segment is
performed, so no artifact is produced at shutdown whatever the state. -/
def onStop (_ : VoxState) : List (List Frame) := []

/-! ## CRC-32 lemmas: 32-bit boundedness and incremental computation -/

/-- A polynomial round keeps the state below `2^32`. -/
theorem crcRound_lt {c : Nat} (h : c < 2 ^ 32) : crcRound c < 2 ^ 32 := by
  unfold crcRound
  split
  · exact Nat.xor_lt_two_pow (Nat.lt_of_le_of_lt (Nat.div_le_self c 2) h) (by norm_num)
  · exact Nat.lt_of_le_of_lt (Nat.div_le_self c 2) h

/-- Iterated polynomial rounds keep the state below `2^32`. -/
theorem iterate_crcRound_lt : ∀ (n : Nat) {c : Nat}, c < 2 ^ 32 → crcRound^[n] c < 2 ^ 32
  | 0, _, h => h
  | n + 1, _, h => by
    rw [Function.iterate_succ_apply]
    exact iterate_crcRound_lt n (crcRound_lt h)

/-- Folding a byte keeps the state below `2^32`. -/
theorem crc32_byte_lt {c b : Nat} (hc : c < 2 ^ 32) (hb : b < 256) :
    crc32_byte c b < 2 ^ 32 :=
  iterate_crcRound_lt 8 (Nat.xor_lt_two_pow hc (Nat.lt_trans hb (by norm_num)))

/-- Folding a byte list keeps the state below `2^32`. -/
theorem crc32_loop_lt (data : List Nat) : ∀ {c : Nat}, c < 2 ^ 32 →
    (∀ b ∈ data, b < 256) → crc32_loop c data < 2 ^ 32 := by
  induction data with
  | nil => exact fun hc _ => hc
  | cons b rest ih =>
    intro c hc hd
    show crc32_loop (crc32_byte c b) rest < 2 ^ 32
    exact ih (crc32_byte_lt hc (hd b (List.mem_cons_self b rest)))
      (fun x hx => hd x (List.mem_cons_of_mem b hx))

/-- `binascii.crc32` always returns a value below `2^32`. -/
theorem crc32_lt {data : List Nat} {v : Nat} (hv : v < 2 ^ 32)
    (hd : ∀ b ∈ data, b < 256) : crc32 data v < 2 ^ 32 := by
  unfold crc32
  exact Nat.xor_lt_two_pow
    (crc32_loop_lt data (Nat.xor_lt_two_pow hv (by norm_num)) hd) (by norm_num)

/-- Masking with `0xFFFFFFFF` is the identity below `2^32`. -/
theorem and_mask_eq {x : Nat} (h : x < 2 ^ 32) : x &&& 0xFFFFFFFF = x := by
  have : (0xFFFFFFFF : Nat) = 2 ^ 32 - 1 := by norm_num
  rw [this]
  exact Nat.and_pow_two_sub_one_of_lt_two_pow h

/-- `crc32_update` is below `2^32` unconditionally (it masks). -/
theorem crc32_update_lt (c : Nat) (d : List Nat) : crc32_update c d < 2 ^ 32 :=
  Nat.lt_of_le_of_lt Nat.and_le_right (by norm_num)

/-- On inputs the program actually produces (a running value below
`2^32` and genuine bytes), the mask in `crc32_update` is a no-op. -/
theorem crc32_update_eq {c : Nat} {d : List Nat} (hc : c < 2 ^ 32)
    (hd : ∀ b ∈ d, b < 256) : crc32_update c d = crc32 d c :=
  and_mask_eq (crc32_lt hc hd)

/-- The pre-complement fold splits over concatenation. -/
theorem crc32_loop_append (c : Nat) (a b : List Nat) :
    crc32_loop c (a ++ b) = crc32_loop (crc32_loop c a) b := by
  unfold crc32_loop
  exact List.foldl_append crc32_byte c a b

/-- Incremental CRC equals whole-input CRC: updating with `a` then `b`
is updating with `a ++ b` (this is why the receiver's chunked
`crc32_update` calls compute the CRC of the whole payload). -/
theorem crc32_update_append {c : Nat} (hc : c < 2 ^ 32) {a : List Nat}
    (ha : ∀ x ∈ a, x < 256) (b : List Nat) :
    crc32_update (crc32_update c a) b = crc32_update c (a ++ b) := by
  rw [crc32_update_eq hc ha]
  unfold crc32_update crc32
  rw [Nat.xor_cancel_right, crc32_loop_append]

/-- Byte-at-a-time updating from `0` computes `crc32_update c P`. -/
theorem foldl_singleton_update : ∀ (P : List Nat) {c : Nat}, c < 2 ^ 32 →
    (∀ b ∈ P, b < 256) →
    P.foldl (fun acc b => crc32_update acc [b]) c = crc32_update c P
  | [], c, hc, _ => by
    simp only [List.foldl_nil]
    unfold crc32_update crc32 crc32_loop
    rw [List.foldl_nil, Nat.xor_cancel_right, and_mask_eq hc]
  | b :: bs, c, hc, hd => by
    rw [List.foldl_cons,
      foldl_singleton_update bs (crc32_update_lt c [b])
        (fun x hx => hd x (List.mem_cons_of_mem b hx)),
      crc32_update_append hc
        (fun x hx => by
          rw [List.mem_singleton] at hx
          exact hx ▸ hd b (List.mem_cons_self b bs)) bs]
    rfl

/-! ## Receive-loop lemmas -/

/-- If the schedule delivers one byte per read, the loop consumes the
whole buffered payload: it terminates with the payload appended to the
file, the counter advanced by its length, and the CRC updated byte by
byte. -/
theorem recvLoop_delivers (hasCrc : Bool) (buf : List Nat) :
    ∀ (received : Nat) (written : List Nat) (crc : Nat) (size : Int),
      (received : Int) + buf.length = size →
      recvLoop size hasCrc (List.replicate buf.length 1) buf received written crc =
        (⟨written ++ buf, received + buf.length,
          if hasCrc then buf.foldl (fun acc b => crc32_update acc [b]) crc else crc,
          []⟩, true) := by
  induction buf with
  | nil =>
    intro received written crc size hsz
    have h1 : ¬((received : Int) < size) := by
      simp only [List.length_nil, Nat.cast_zero] at hsz
      omega
    simp [recvLoop, h1]
  | cons b bs ih =>
    intro received written crc size hsz
    simp only [List.length_cons, Nat.cast_add, Nat.cast_one] at hsz
    have hlt : (received : Int) < size := by omega
    have hmin : min 1 ((min (size - (received : Int)) 1024).toNat) = 1 := by omega
    rw [List.length_cons, List.replicate_succ, recvLoop, if_pos hlt]
    simp only [hmin, List.take_succ_cons, List.take_zero, List.length_cons,
      List.length_nil, Nat.zero_add]
    rw [if_neg (by simp)]
    simp only [List.drop_succ_cons, List.drop_zero]
    rw [ih (received + 1) (written ++ [b])
      (if hasCrc then crc32_update crc [b] else crc) size (by push_cast; omega)]
    have e1 : written ++ [b] ++ bs = written ++ b :: bs := by
      rw [List.append_assoc]
      rfl
    have e2 : received + 1 + bs.length = received + (bs.length + 1) := by omega
    cases hasCrc <;> simp [e1, e2]

/-- Whenever the payload loop terminates normally, the bytes-received
counter ends exactly at the declared size, provided it started no
larger (sizes are compared as integers; the loop body is entered only
while `received < size` and each read requests at most the remaining
byte count). -/
theorem recvLoop_received_eq (hasCrc : Bool) (size : Int) :
    ∀ (avail buf : List Nat) (received : Nat) (written : List Nat) (crc : Nat),
      (received : Int) ≤ size →
      (recvLoop size hasCrc avail buf received written crc).2 = true →
      ((recvLoop size hasCrc avail buf received written crc).1.received : Int) = size := by
  intro avail
  induction avail with
  | nil =>
    intro buf received written crc hle hdone
    simp only [recvLoop, Bool.not_eq_true'] at hdone ⊢
    simp only [decide_eq_false_iff_not] at hdone
    omega
  | cons a rest ih =>
    intro buf received written crc hle hdone
    rw [recvLoop] at hdone ⊢
    by_cases hlt : (received : Int) < size
    · rw [if_pos hlt] at hdone ⊢
      simp only at hdone ⊢
      by_cases hchunk : (buf.take (min a (min (size - (received : Int)) 1024).toNat)).length = 0
      · rw [if_pos hchunk] at hdone ⊢
        exact ih buf received written crc hle hdone
      · rw [if_neg hchunk] at hdone ⊢
        have hlen : (buf.take (min a (min (size - (received : Int)) 1024).toNat)).length ≤
            (min (size - (received : Int)) 1024).toNat := by
          rw [List.length_take]
          omega
        exact ih _ _ _ _ (by push_cast; omega) hdone
    · rw [if_neg hlt]
      show (received : Int) = size
      omega

/-! ## Serial, path and header lemmas -/

/-- `readLine` cuts exactly at the first newline. -/
theorem readLine_append {l : List Nat} (h : (10 : Nat) ∉ l) (P : List Nat) :
    readLine (l ++ 10 :: P) = (l ++ [10], P) := by
  induction l with
  | nil => simp [readLine]
  | cons b bs ih =>
    have hb : ¬(b = 10) := fun e => h (e ▸ List.mem_cons_self b bs)
    have ih' := ih (fun hm => h (List.mem_cons_of_mem b hm))
    simp only [List.cons_append, readLine, if_neg hb, List.append_eq, ih']

/-- `basename` never contains a slash. -/
theorem basename_no_slash (s : List Char) : '/' ∉ basename s := by
  suffices h : ∀ acc : List Char, '/' ∉ acc →
      '/' ∉ s.foldl (fun acc c => if c = '/' then [] else acc ++ [c]) acc from
    h [] (by simp)
  induction s with
  | nil => intro acc hacc; exact hacc
  | cons c cs ih =>
    intro acc hacc
    simp only [List.foldl_cons]
    by_cases hc : c = '/'
    · rw [if_pos hc]
      exact ih [] (by simp)
    · rw [if_neg hc]
      refine ih (acc ++ [c]) ?_
      intro hmem
      rcases List.mem_append.mp hmem with h1 | h1
      · exact hacc h1
      · rw [List.mem_singleton] at h1
        exact hc h1.symm

/-! ## Receiver trace lemmas -/

/-- The receiver itself never emits the arbiter's `enterProcessing`. -/
theorem uart_receiver_no_enter (envs : List IterEnv) :
    ∀ stream, Event.enterProcessing ∉ uart_receiver envs stream := by
  induction envs with
  | nil =>
    intro stream
    simp [uart_receiver]
  | cons env rest ih =>
    intro stream
    simp only [uart_receiver]
    split
    · simp
    · split
      · exact ih _
      · split
        · exact ih _
        · split
          · exact ih _
          · split
            · intro hmem
              rcases List.mem_cons.mp hmem with h1 | h1
              · exact Event.noConfusion h1
              · rcases List.mem_cons.mp h1 with h2 | h2
                · revert h2
                  split <;> exact fun h2 => Event.noConfusion h2
                · exact ih _ h2
            · simp

/-- In any receiver trace, `closeEv` can only be the final event: the
loop emits it and returns immediately. -/
theorem uart_receiver_close_last (envs : List IterEnv) :
    ∀ stream pre post, uart_receiver envs stream = pre ++ Event.closeEv :: post →
      post = [] := by
  induction envs with
  | nil =>
    intro stream pre post h
    rw [uart_receiver] at h
    exact absurd h.symm (List.append_ne_nil_of_right_ne_nil pre (List.cons_ne_nil _ _))
  | cons env rest ih =>
    intro stream pre post h
    simp only [uart_receiver] at h
    revert h
    split
    · intro h
      match pre, h with
      | [], h => exact (List.cons.injEq .. ▸ h).2.symm
      | p :: pre', h =>
        have := (List.cons.injEq .. ▸ h).2
        exact absurd this.symm (List.append_ne_nil_of_right_ne_nil pre' (List.cons_ne_nil _ _))
    · split
      · exact fun h => ih _ pre post h
      · split
        · exact fun h => ih _ pre post h
        · split
          · exact fun h => ih _ pre post h
          · split
            · intro h
              match pre, h with
              | [], h => exact Event.noConfusion (List.cons.injEq .. ▸ h).1
              | p :: pre', h =>
                have h2 := (List.cons.injEq .. ▸ h).2
                match pre', h2 with
                | [], h2 =>
                  have := (List.cons.injEq .. ▸ h2).1
                  revert this
                  split <;> exact fun hc => Event.noConfusion hc
                | q :: pre'', h2 =>
                  exact ih _ pre'' post (List.cons.injEq .. ▸ h2).2
            · intro h
              match pre, h with
              | [], h => exact Event.noConfusion (List.cons.injEq .. ▸ h).1
              | p :: pre', h =>
                have h2 := (List.cons.injEq .. ▸ h).2
                exact absurd h2.symm
                  (List.append_ne_nil_of_right_ne_nil pre' (List.cons_ne_nil _ _))

/-! ## Vox constants -/

/-- The pre-roll deque capacity is 16 frames (0.5 s / 30 ms, truncated). -/
theorem pre_maxlen_eq : pre_maxlen = 16 := by
  unfold pre_maxlen pre_speech_padding frame_duration
  norm_num
  rfl

/-- The post-roll filler count is 16 frames (0.5 s / 30 ms, truncated). -/
theorem post_frames_eq : post_frames = 16 := by
  unfold post_frames post_speech_padding frame_duration
  norm_num
  rfl

/-- Byte encoding of an ASCII string, for concrete wire inputs. -/
def strBytes (s : String) : List Nat := s.data.map Char.toNat

/-! ## Claims -/

/-- The join of the audio directory with a basename always appends the
slash-free basename directly under the audio directory. -/
theorem join_basename_eq (filename : List Char) :
    ospath_join AUDIO_DIR (basename filename) =
      AUDIO_DIR ++ '/' :: basename filename := by
  have hno : '/' ∉ basename filename := basename_no_slash filename
  have h1 : (basename filename).head? ≠ some '/' := by
    cases hb : basename filename with
    | nil => simp
    | cons c cs =>
      simp only [List.head?_cons]
      intro hc
      have hc' := Option.some.inj hc
      subst hc'
      exact hno (hb ▸ List.mem_cons_self _ cs)
  unfold ospath_join
  rw [if_neg h1, if_neg (by decide)]

/-- C9: every file write the receiver performs targets
`os.path.join(AUDIO_DIR, os.path.basename(filename))`; the basename
contains no slash and the join therefore always lands directly inside
the audio directory, whatever filename the sender declares. -/
theorem c9_basename_confines :
    (∀ filename : List Char,
      ospath_join AUDIO_DIR (basename filename) =
        AUDIO_DIR ++ '/' :: basename filename ∧
      '/' ∉ basename filename) ∧
    (∀ (envs : List IterEnv) (stream : List Nat) (p : List Char) (d : List Nat),
      Event.fileWrite p d ∈ uart_receiver envs stream →
      ∃ f, p = AUDIO_DIR ++ '/' :: basename f ∧ '/' ∉ basename f) := by
  refine ⟨fun filename => ⟨join_basename_eq filename, basename_no_slash filename⟩, ?_⟩
  intro envs
  induction envs with
  | nil =>
    intro stream p d hmem
    simp [uart_receiver] at hmem
  | cons env rest ih =>
    intro stream p d hmem
    simp only [uart_receiver] at hmem
    revert hmem
    split
    · intro hmem
      rw [List.mem_singleton] at hmem
      exact Event.noConfusion hmem
    · split
      · exact fun hmem => ih _ p d hmem
      · split
        · exact fun hmem => ih _ p d hmem
        · split
          · exact fun hmem => ih _ p d hmem
          · split
            · intro hmem
              rcases List.mem_cons.mp hmem with h1 | h1
              · have hp := (Event.fileWrite.injEq .. ▸ h1).1
                subst hp
                exact ⟨_, join_basename_eq _, basename_no_slash _⟩
              · rcases List.mem_cons.mp h1 with h2 | h2
                · revert h2
                  split <;> exact fun h2 => Event.noConfusion h2
                · exact ih _ p d h2
            · intro hmem
              rw [List.mem_singleton] at hmem
              have hp := (Event.fileWrite.injEq .. ▸ hmem).1
              subst hp
              exact ⟨_, join_basename_eq _, basename_no_slash _⟩

/-- C9 witness: a traversal-style filename `../../etc/passwd` is
stripped to `passwd` directly under the audio directory. -/
theorem c9_witness :
    ∃ f, "/home/pi/wav_pipeline/audio/passwd".data =
      AUDIO_DIR ++ '/' :: basename f ∧ '/' ∉ basename f :=
  c9_basename_confines.2 [⟨false, [6]⟩]
    (strBytes "../../etc/passwd,6\n" ++ strBytes "secret") "/home/pi/wav_pipeline/audio/passwd".data
    (strBytes "secret") (by decide)

/-- C4: a header line with fewer than two comma-separated fields, or an
unparsable size field, makes the receiver skip the transfer entirely:
the iteration consumes only the header line and produces no event (no
payload read, no file, no ACK/NACK), and the loop continues with the
next header on the same stream.  The second conjunct characterizes the
skip condition as exactly those two failure modes. -/
theorem c4_malformed_header_skipped (env : IterEnv) (rest : List IterEnv)
    (stream : List Nat) (chars : List Char) :
    (env.gpioHigh = false →
      (readLine stream).1.length ≠ 0 →
      decodeAscii (readLine stream).1 = some chars →
      parseHeader (pyStrip chars) = none →
      uart_receiver (env :: rest) stream = uart_receiver rest (readLine stream).2) ∧
    (∀ hdr : List Char,
      parseHeader hdr = none ↔
        ((hdr.splitOn ',').length < 2 ∨
          pyIntParse ((hdr.splitOn ',').getD 1 []) = none)) := by
  constructor
  · intro hg hline hdec hparse
    simp only [uart_receiver, hg, Bool.false_eq_true, if_false, if_neg hline, hdec, hparse]
  · intro hdr
    unfold parseHeader
    simp only [List.getD]
    by_cases h2 : (hdr.splitOn ',').length < 2
    · simp [h2]
    · cases hp : pyIntParse ((hdr.splitOn ',')[1]?.getD []) <;> simp [h2, hp]

/-- C4 witness: a one-field header is skipped; with no further
environment the receiver then produces no events at all. -/
theorem c4_witness :
    uart_receiver [⟨false, []⟩] (strBytes "onefield\n") = [] :=
  ((c4_malformed_header_skipped ⟨false, []⟩ [] (strBytes "onefield\n")
    "onefield\n".data).1 rfl (by decide) (by decide) (by decide)).trans rfl

/-- C10 counterexample: a header may declare a negative size (Python's
`int` accepts `"-3"`), in which case the payload loop terminates at
once with 0 bytes received — not equal to the declared size — and the
receiver NACKs even though no checksum was declared; an (empty) file is
still created.  This falsifies the claim as stated for every transfer. -/
theorem c10_counterexample :
    parseHeader (pyStrip "f,-3\n".data) = some (['f'], -3, none) ∧
    (recvLoop (-3) false [] [] 0 [] 0).2 = true ∧
    (recvLoop (-3) false [] [] 0 [] 0).1.received = 0 ∧
    uart_receiver [⟨false, []⟩] (strBytes "f,-3\n") =
      [Event.fileWrite (AUDIO_DIR ++ ['/', 'f']) [], Event.nackEv] := by
  refine ⟨by decide, by decide, by decide, by decide⟩

/-- C10 (amended to nonnegative declared sizes): whenever the payload
loop of a transfer with declared size ≥ 0 terminates, the
bytes-received counter equals the declared size exactly — each read
requests at most the remaining byte count, so the counter never
overshoots, and the loop exits only at equality — and consequently a
NACK can only be caused by a declared checksum that differs from the
computed one. -/
theorem c10_received_eq_size (size : Int) (expected : Option Int)
    (avail buf : List Nat) (hsize : 0 ≤ size)
    (hdone : (recvLoop size expected.isSome avail buf 0 [] 0).2 = true) :
    ((recvLoop size expected.isSome avail buf 0 [] 0).1.received : Int) = size ∧
    (transferOk size expected
        (recvLoop size expected.isSome avail buf 0 [] 0).1.received
        (recvLoop size expected.isSome avail buf 0 [] 0).1.crc = false →
      ∃ e, expected = some e ∧
        (((recvLoop size expected.isSome avail buf 0 [] 0).1.crc : Int) ≠ e)) := by
  have h1 : ((recvLoop size expected.isSome avail buf 0 [] 0).1.received : Int) = size :=
    recvLoop_received_eq expected.isSome size avail buf 0 [] 0
      (by simpa using hsize) hdone
  refine ⟨h1, ?_⟩
  intro hfail
  unfold transferOk at hfail
  rw [h1] at hfail
  cases hexp : expected with
  | none =>
    rw [hexp] at hfail
    simp at hfail
  | some e =>
    rw [hexp] at hfail
    simp only [decide_eq_true_eq, Bool.and_eq_false_iff, decide_eq_false_iff_not] at hfail
    rcases hfail with hfail | hfail
    · exact absurd trivial hfail
    · exact ⟨e, rfl, hfail⟩

/-- C10 witness: a zero-size transfer with no declared checksum
terminates immediately with 0 = 0 bytes received. -/
theorem c10_witness :
    ((recvLoop 0 (Option.isSome (none : Option Int)) [] [] 0 [] 0).1.received : Int) = 0 :=
  (c10_received_eq_size 0 none [] [] (by decide) (by decide)).1

/-- A complete single transfer: when the stream carries a header line
that parses to `(fname, |P|, expected)` followed by the payload `P`,
and the port delivers a byte per read, the receiver writes `P` to the
file at the basename-derived path and answers according to the
finalization check. -/
theorem uart_single_transfer (l P : List Nat) (fname : List Char)
    (expected : Option Int) (hl : (10 : Nat) ∉ l) (hP : ∀ b ∈ P, b < 256)
    (hparse : (decodeAscii (l ++ [10])).bind (fun cs => parseHeader (pyStrip cs)) =
      some (fname, (P.length : Int), expected)) :
    uart_receiver [⟨false, List.replicate P.length 1⟩] (l ++ 10 :: P) =
      [Event.fileWrite (ospath_join AUDIO_DIR (basename fname)) P,
        if transferOk (P.length : Int) expected P.length
            (if expected.isSome then crc32 P 0 else 0) = true
          then Event.ackEv else Event.nackEv] := by
  cases hdec : decodeAscii (l ++ [10]) with
  | none =>
    rw [hdec] at hparse
    exact absurd hparse (by simp)
  | some cs =>
    rw [hdec] at hparse
    simp only [Option.some_bind] at hparse
    have hrl : readLine (l ++ 10 :: P) = (l ++ [10], P) := readLine_append hl P
    have hlen : ¬((l ++ [10]).length = 0) := by simp
    have hrecv := recvLoop_delivers expected.isSome P 0 [] 0 (P.length : Int) (by simp)
    have hfold : P.foldl (fun acc b => crc32_update acc [b]) 0 = crc32 P 0 := by
      rw [foldl_singleton_update P (by norm_num) hP, crc32_update_eq (by norm_num) hP]
    simp only [uart_receiver, hrl, if_neg hlen, hdec, hparse, hrecv, hfold,
      List.nil_append, Nat.zero_add, Bool.false_eq_true, if_false]

/-- C1: the finalization of an accepted transfer ACKs exactly when the
bytes received equal the declared size and either no checksum was
declared or the computed CRC-32 equals the declared one, and NACKs
otherwise, the received bytes having been written to the destination
file in both cases.  In particular a payload transferred with its own
CRC-32 declared is ACKed with the full payload persisted, and the same
transfer declaring `crc32(P) + 1` is NACKed with the payload still
persisted. -/
theorem c1_ack_iff_and_crc_roundtrip :
    (∀ (size : Int) (expected : Option Int) (received crc : Nat),
      transferOk size expected received crc = true ↔
        ((received : Int) = size ∧
          (expected = none ∨ expected = some ((crc : Nat) : Int)))) ∧
    (∀ (l P : List Nat) (fname : List Char),
      (10 : Nat) ∉ l →
      (∀ b ∈ P, b < 256) →
      (decodeAscii (l ++ [10])).bind (fun cs => parseHeader (pyStrip cs)) =
        some (fname, (P.length : Int), some ((crc32 P 0 : Nat) : Int)) →
      uart_receiver [⟨false, List.replicate P.length 1⟩] (l ++ 10 :: P) =
        [Event.fileWrite (ospath_join AUDIO_DIR (basename fname)) P, Event.ackEv]) ∧
    (∀ (l P : List Nat) (fname : List Char),
      (10 : Nat) ∉ l →
      (∀ b ∈ P, b < 256) →
      (decodeAscii (l ++ [10])).bind (fun cs => parseHeader (pyStrip cs)) =
        some (fname, (P.length : Int), some (((crc32 P 0 : Nat) : Int) + 1)) →
      uart_receiver [⟨false, List.replicate P.length 1⟩] (l ++ 10 :: P) =
        [Event.fileWrite (ospath_join AUDIO_DIR (basename fname)) P, Event.nackEv]) := by
  refine ⟨?_, ?_, ?_⟩
  · intro size expected received crc
    unfold transferOk
    cases expected with
    | none => simp
    | some e =>
      simp only [Bool.and_eq_true, decide_eq_true_eq, Option.some.injEq]
      constructor
      · rintro ⟨h1, h2⟩
        exact ⟨h1, Or.inr h2.symm⟩
      · rintro ⟨h1, h2 | h2⟩
        · exact absurd h2 (by simp)
        · exact ⟨h1, h2.symm⟩
  · intro l P fname hl hP hparse
    rw [uart_single_transfer l P fname _ hl hP hparse]
    simp [transferOk]
  · intro l P fname hl hP hparse
    rw [uart_single_transfer l P fname _ hl hP hparse]
    have hne : ¬(((crc32 P 0 : Nat) : Int) = ((crc32 P 0 : Nat) : Int) + 1) := by omega
    simp [transferOk, hne]

/-- C1 witness: the single byte `0x00` (CRC-32 `3523407757`) is ACKed
when transferred with its own CRC declared and NACKed when transferred
with that CRC plus one; the byte is written to the file in both cases. -/
theorem c1_witness :
    uart_receiver [⟨false, [1]⟩] (strBytes "f,1,3523407757" ++ 10 :: [0]) =
      [Event.fileWrite (ospath_join AUDIO_DIR (basename ['f'])) [0], Event.ackEv] ∧
    uart_receiver [⟨false, [1]⟩] (strBytes "f,1,3523407758" ++ 10 :: [0]) =
      [Event.fileWrite (ospath_join AUDIO_DIR (basename ['f'])) [0], Event.nackEv] :=
  ⟨c1_ack_iff_and_crc_roundtrip.2.1 (strBytes "f,1,3523407757") [0] ['f']
      (by decide) (by decide) (by decide),
   c1_ack_iff_and_crc_roundtrip.2.2 (strBytes "f,1,3523407758") [0] ['f']
      (by decide) (by decide) (by decide)⟩

/-- C3: the receiver stops cleanly at the GPIO poll — in any receiver
trace the stream-close event can only be the last event, so no header
is read and no file is written after the high signal is observed — and
in a receive session followed by `main`'s debounced arbitration, every
file write of the receiver strictly precedes the commitment to
PROCESSING. -/
theorem c3_receiver_stops_before_processing (envs : List IterEnv)
    (stream : List Nat) (s1 s2 : Bool) :
    (∀ pre post, uart_receiver envs stream = pre ++ Event.closeEv :: post →
      post = []) ∧
    (∀ (i j : Nat) (p : List Char) (d : List Nat),
      (receiveThenArbitrate envs stream s1 s2).get? i =
        some (Event.fileWrite p d) →
      (receiveThenArbitrate envs stream s1 s2).get? j =
        some Event.enterProcessing →
      i < j) := by
  refine ⟨uart_receiver_close_last envs stream, ?_⟩
  intro i j p d hi hj
  unfold receiveThenArbitrate at hi hj
  have hie : i < (uart_receiver envs stream).length := by
    by_contra hge
    push_neg at hge
    rw [List.get?_append_right hge] at hi
    revert hi
    split
    · intro hi
      have hmem := List.get?_mem hi
      rw [List.mem_singleton] at hmem
      exact Event.noConfusion hmem
    · intro hi
      simp at hi
  have hje : (uart_receiver envs stream).length ≤ j := by
    by_contra hlt
    push_neg at hlt
    rw [List.get?_append hlt] at hj
    exact uart_receiver_no_enter envs stream (List.get?_mem hj)
  omega

/-- C3 witness: a complete transfer followed by a GPIO-high iteration
and a debounced arbitration gives the trace
`[fileWrite, ACK, close, enterProcessing]`; the file write (index 0)
precedes the processing commitment (index 3), and the close event is
final in the receiver trace. -/
theorem c3_witness : ([] : List Event) = [] ∧ (0 : Nat) < 3 :=
  ⟨(c3_receiver_stops_before_processing [⟨false, [2]⟩, ⟨true, []⟩]
      (strBytes "f,2\n" ++ [65, 66]) true true).1
      [Event.fileWrite (AUDIO_DIR ++ ['/', 'f']) [65, 66], Event.ackEv] []
      (by decide),
   (c3_receiver_stops_before_processing [⟨false, [2]⟩, ⟨true, []⟩]
      (strBytes "f,2\n" ++ [65, 66]) true true).2 0 3
      (AUDIO_DIR ++ ['/', 'f']) [65, 66] (by decide) (by decide)⟩

/-- C2: an artifact is persisted by a callback step exactly when that
step finalizes a segment (non-speech frame, recording, silence timer
expired) and the segment's cumulative speech-frame count times the
frame duration reaches the minimum speech duration; a finalization
below the minimum records a discard and produces no artifact. -/
theorem c2_min_duration_gate (s : VoxState) (pcm : Frame) (sp : Bool) (t : ℚ) :
    (emitted s pcm sp t ≠ none ↔
      (sp = false ∧ s.recording = true ∧
        ∃ t0, s.silence_start_time = some t0 ∧ silence_threshold < t - t0 ∧
          min_speech_duration ≤ (s.speech_frame_count : ℚ) * (frame_duration : ℚ) / 1000)) ∧
    ((callback s pcm sp t).2 = some none ↔
      (sp = false ∧ s.recording = true ∧
        ∃ t0, s.silence_start_time = some t0 ∧ silence_threshold < t - t0 ∧
          (s.speech_frame_count : ℚ) * (frame_duration : ℚ) / 1000 < min_speech_duration)) := by
  unfold emitted callback save_audio
  cases sp with
  | true => simp
  | false =>
    cases hrec : s.recording with
    | false => simp [hrec]
    | true =>
      cases hsil : s.silence_start_time with
      | none => simp [hrec, hsil]
      | some t0 =>
        by_cases ht : silence_threshold < t - t0
        · by_cases hgate :
            (s.speech_frame_count : ℚ) * (frame_duration : ℚ) / 1000 < min_speech_duration
          · simp [hrec, hsil, ht, hgate, not_le.mpr hgate]
          · simp [hrec, hsil, ht, hgate, not_lt.mp hgate, not_lt]
        · simp [hrec, hsil, ht]

/-- C5: on speech onset from the idle state, the active buffer is
seeded with exactly the pre-roll buffer contents in order followed by
the onset frame, and the speech-frame counter restarts from zero (so it
reads 1 after counting the onset frame, whatever it was before); the
pre-roll buffer holds at most `pre_maxlen = 16` of the most recent idle
frames; while recording, the active buffer only grows by appending, and
any emitted artifact extends the buffer contents, so an emitted
segment's initial frames are the pre-roll contents at onset. -/
theorem c5_preroll_seeding (s : VoxState) (pcm : Frame) (sp : Bool) (t : ℚ) :
    (s.recording = false → sp = true →
      (callback s pcm sp t).1.audio_buffer = s.pre_speech_buffer ++ [pcm] ∧
      (callback s pcm sp t).1.speech_frame_count = 1) ∧
    (s.recording = false → sp = false →
      (callback s pcm sp t).1.pre_speech_buffer =
        dequeAppend pre_maxlen s.pre_speech_buffer pcm ∧
      (s.pre_speech_buffer.length ≤ pre_maxlen →
        (callback s pcm sp t).1.pre_speech_buffer.length ≤ pre_maxlen ∧
        (callback s pcm sp t).1.pre_speech_buffer <:+ s.pre_speech_buffer ++ [pcm])) ∧
    (s.recording = true → (callback s pcm sp t).1.recording = true →
      ∃ tl, (callback s pcm sp t).1.audio_buffer = s.audio_buffer ++ tl) ∧
    (∀ a, (callback s pcm sp t).2 = some (some a) →
      ∃ tl, a = s.audio_buffer ++ tl) ∧
    pre_maxlen = 16 := by
  refine ⟨?_, ?_, ?_, ?_, pre_maxlen_eq⟩
  · intro hrec hsp
    subst hsp
    simp [callback, hrec]
  · intro hrec hsp
    subst hsp
    refine ⟨by simp [callback, hrec], ?_⟩
    intro hlen
    constructor
    · simp only [callback, hrec, Bool.false_eq_true, if_false, dequeAppend]
      rw [List.length_drop, List.length_append]
      simp only [List.length_singleton]
      omega
    · simp only [callback, hrec, Bool.false_eq_true, if_false, dequeAppend]
      exact List.drop_suffix _ _
  · intro hrec hrec'
    cases sp with
    | true =>
      refine ⟨[pcm], ?_⟩
      simp [callback, hrec]
    | false =>
      cases hsil : s.silence_start_time with
      | none =>
        refine ⟨[pcm], ?_⟩
        simp [callback, hrec, hsil]
      | some t0 =>
        by_cases ht : silence_threshold < t - t0
        · exfalso
          simp [callback, hrec, hsil, ht] at hrec'
        · refine ⟨[pcm], ?_⟩
          simp [callback, hrec, hsil, ht]
  · intro a ha
    cases sp with
    | true => simp [callback] at ha
    | false =>
      cases hrec : s.recording with
      | false => simp [callback, hrec] at ha
      | true =>
        cases hsil : s.silence_start_time with
        | none => simp [callback, hrec, hsil] at ha
        | some t0 =>
          by_cases ht : silence_threshold < t - t0
          · by_cases hgate :
              (s.speech_frame_count : ℚ) * (frame_duration : ℚ) / 1000 <
                min_speech_duration
            · simp [callback, save_audio, hrec, hsil, ht, hgate] at ha
            · have ha' :
                  s.audio_buffer ++ [pcm] ++ List.replicate post_frames pcm = a := by
                simpa [callback, save_audio, hrec, hsil, ht, hgate] using ha
              exact ⟨[pcm] ++ List.replicate post_frames pcm, by
                rw [← ha', List.append_assoc]⟩
          · simp [callback, hrec, hsil, ht] at ha

/-- C5 witness: from an idle state with two buffered pre-roll frames,
a speech frame seeds the active buffer with both pre-roll frames
followed by the onset frame and restarts the counter at 1 even though
it previously read 42. -/
theorem c5_witness :
    (callback ⟨false, [], [[7], [8]], none, 42⟩ [9] true 0).1.audio_buffer =
      [[7], [8]] ++ [[9]] ∧
    (callback ⟨false, [], [[7], [8]], none, 42⟩ [9] true 0).1.speech_frame_count = 1 :=
  (c5_preroll_seeding ⟨false, [], [[7], [8]], none, 42⟩ [9] true 0).1 rfl rfl

/-- C6: when the silence threshold elapses on a non-speech frame, the
gating check receives the active buffer extended by that frame and then
exactly `int(post_speech_padding * 1000 / frame_duration) = 16`
additional frames, each a copy of the last captured frame (the frame
just appended). -/
theorem c6_postroll_filler (s : VoxState) (pcm : Frame) (t t0 : ℚ)
    (hrec : s.recording = true) (hsil : s.silence_start_time = some t0)
    (ht : silence_threshold < t - t0) :
    (callback s pcm false t).2 =
      some (save_audio ((s.audio_buffer ++ [pcm]) ++ List.replicate post_frames pcm)
        s.speech_frame_count) ∧
    post_frames = 16 ∧
    (s.audio_buffer ++ [pcm]).getLast? = some pcm ∧
    ∀ x ∈ List.replicate post_frames pcm, x = pcm := by
  refine ⟨?_, post_frames_eq, ?_, ?_⟩
  · simp [callback, hrec, hsil, ht]
  · exact List.getLast?_concat _
  · intro x hx
    exact List.eq_of_mem_replicate hx

/-- C6 witness: with one buffered frame, a finalizing silence frame
hands `save_audio` that buffer, the silence frame, and 16 copies of it. -/
theorem c6_witness :
    (callback ⟨true, [[1]], [], some 0, 167⟩ [2] false 31).2 =
      some (save_audio ((([[1]] : List Frame) ++ [[2]]) ++
        List.replicate post_frames [2]) 167) :=
  (c6_postroll_filler ⟨true, [[1]], [], some 0, 167⟩ [2] 31 0 rfl rfl
    (by norm_num [silence_threshold])).1

/-- C7: evidence of the code-level gap — the listen loop's
KeyboardInterrupt handler produces no artifact at shutdown even from a
RECORDING state whose speech duration (200 frames × 30 ms = 6 s) passes
the 5 s gate that `save_audio` would apply, so an in-progress utterance
is silently dropped rather than force-finalized as the specification
requires. -/
theorem c7_stop_discards_segment :
    onStop ⟨true, List.replicate 200 [1], [], none, 200⟩ = [] ∧
    save_audio (List.replicate 200 [1]) 200 = some (List.replicate 200 [1]) ∧
    min_speech_duration ≤ (200 : ℚ) * (frame_duration : ℚ) / 1000 := by
  refine ⟨rfl, ?_, by norm_num [min_speech_duration, frame_duration]⟩
  unfold save_audio
  rw [if_neg]
  norm_num [min_speech_duration, frame_duration]

/-- C8 counterexample inputs: identical frames with identical
classifications, differing only in the wall-clock time of the last
callback. -/
def c8run1 : List (Frame × Bool × ℚ) :=
  [([1], true, 0), ([0], false, 10), ([0], false, 41)]

/-- Second C8 run: same frames and classifications, later silence
check arrives 21 s after the timer started instead of 31 s. -/
def c8run2 : List (Frame × Bool × ℚ) :=
  [([1], true, 0), ([0], false, 10), ([0], false, 31)]

/-- C8 counterexample: two runs fed byte-identical frame sequences with
identical speech classifications can produce different segment
boundaries/discard decisions, because endpointing depends on the wall
clock (`time.time()`), not on the frame sequence: the first run's last
callback arrives 31 s after silence started (timer expired, segment
finalized and discarded), the second run's arrives 21 s after (still
recording). -/
theorem c8_counterexample :
    c8run1.map (fun x => x.1) = c8run2.map (fun x => x.1) ∧
    c8run1.map (fun x => x.2.1) = c8run2.map (fun x => x.2.1) ∧
    (voxRun voxInit c8run1).2 ≠ (voxRun voxInit c8run2).2 := by
  refine ⟨rfl, rfl, ?_⟩
  norm_num [c8run1, c8run2, voxRun, callback, voxInit, save_audio,
    silence_threshold, min_speech_duration, frame_duration, dequeAppend]

/-- C8 (amended): segmentation is deterministic in the full observed
input — frames, classifications, and callback timestamps together
determine the run's segment decisions exactly. -/
theorem c8_deterministic_in_timed_input (s : VoxState)
    (a b : List (Frame × Bool × ℚ))
    (hf : a.map (fun x => x.1) = b.map (fun x => x.1))
    (hc : a.map (fun x => x.2.1) = b.map (fun x => x.2.1))
    (ht : a.map (fun x => x.2.2) = b.map (fun x => x.2.2)) :
    voxRun s a = voxRun s b := by
  have hab : a = b := by
    induction a generalizing b with
    | nil =>
      cases b with
      | nil => rfl
      | cons y ys => simp at hf
    | cons x xs ih =>
      cases b with
      | nil => simp at hf
      | cons y ys =>
        simp only [List.map_cons, List.cons.injEq] at hf hc ht
        rw [ih ys hf.2 hc.2 ht.2]
        have hx : x = y := by
          obtain ⟨h1, _⟩ := hf
          obtain ⟨h2, _⟩ := hc
          obtain ⟨h3, _⟩ := ht
          exact Prod.ext h1 (Prod.ext h2 h3)
        rw [hx]
  rw [hab]

/-- C8 witness: the amended determinism theorem applied to the first
counterexample input against itself. -/
theorem c8_witness : voxRun voxInit c8run1 = voxRun voxInit c8run1 :=
  c8_deterministic_in_timed_input voxInit c8run1 c8run1 rfl rfl rfl
